import Mathlib

/-!
Verification of the `SequentialGenerator` class (src/SequentialGenerator.ts,
the current implementation cited by the claims).

JS strings are modelled as lists of characters (`Str`), JS numbers occurring
as sequence values and widths as `Nat`, and string indices as `Int` so that
the JS sentinel `-1` of `lastIndexOf` and negative index arithmetic are
modelled exactly (JS `substring` clamps negative indices to 0, which `Int.toNat`
mirrors).  The date/time backend (dayjs) is a black box: each operation takes
the ambient rendered date `today` (the value of `dayjs().tz(tz).format(fmt)`
at the call), and `getDateKey` is modelled against an abstract `clock`
rendering function for the constructor claims.
-/

namespace SeqGen

/-- JS strings, modelled as lists of characters. -/
abbrev Str := List Char

/-- JS `s.padStart(w, c)`: left-pad to width `w`; never truncates. -/
def padStart (s : Str) (w : Nat) (c : Char) : Str :=
  List.replicate (w - s.length) c ++ s

theorem padStart_length (s : Str) (w : Nat) (c : Char) :
    (padStart s w c).length = max s.length w := by
  simp [padStart]
  omega

/-- The decimal digit character for `d < 10` (unreachable default otherwise). -/
def decDigit (d : Nat) : Char :=
  match d with
  | 0 => '0' | 1 => '1' | 2 => '2' | 3 => '3' | 4 => '4'
  | 5 => '5' | 6 => '6' | 7 => '7' | 8 => '8' | _ => '9'

/-- Fuel-indexed decimal rendering; `fuel` bounds the number of digits. -/
def toDecAux (fuel n : Nat) : Str :=
  match fuel with
  | 0 => []
  | fuel + 1 =>
      if n < 10 then [decDigit n]
      else toDecAux fuel (n / 10) ++ [decDigit (n % 10)]

/-- Decimal rendering of a natural number, modelling JS `String(n)`.
`n + 1` units of fuel always suffice because `n < 10 ^ (n + 1)`. -/
def toDec (n : Nat) : Str := toDecAux (n + 1) n

/-- A decimal digit character, modelling the JS regex class `\d`. -/
def isDigitChar (c : Char) : Bool := 48 ≤ c.toNat && c.toNat ≤ 57

/-- Model of the JS test `/^\d+$/.test(s)`. -/
def isDigitsNonempty (s : Str) : Bool := !s.isEmpty && s.all isDigitChar

/-- Numeric value of a digit character. -/
def digitVal (c : Char) : Nat := c.toNat - 48

/-- Value of a string of decimal digits. -/
def parseDigits (s : Str) : Nat := s.foldl (fun acc c => 10 * acc + digitVal c) 0

/-- Model of JS `parseInt(s, 10)` on strings without sign or leading
whitespace: parses the longest leading run of decimal digits; `none`
models `NaN`.  Every string this code feeds to `parseInt` is either all
digits or starts with a non-digit, so sign/whitespace handling is moot. -/
def parseIntTS (s : Str) : Option Nat :=
  let ds := s.takeWhile isDigitChar
  if ds.isEmpty then none else some (parseDigits ds)

theorem takeWhile_of_all {p : Char → Bool} :
    ∀ l : Str, l.all p = true → l.takeWhile p = l := by
  intro l h
  induction l with
  | nil => rfl
  | cons a l ih =>
      simp only [List.all_cons, Bool.and_eq_true] at h
      simp [List.takeWhile_cons, h.1, ih h.2]

theorem parseIntTS_of_digits (s : Str) (h : isDigitsNonempty s = true) :
    parseIntTS s = some (parseDigits s) := by
  simp only [isDigitsNonempty, Bool.and_eq_true, Bool.not_eq_true'] at h
  simp [parseIntTS, takeWhile_of_all s h.2, h.1]

theorem decDigit_isDigit (d : Nat) (h : d < 10) : isDigitChar (decDigit d) = true := by
  interval_cases d <;> decide

theorem decDigit_val (d : Nat) (h : d < 10) : digitVal (decDigit d) = d := by
  interval_cases d <;> decide

theorem parseDigits_append_one (xs : Str) (c : Char) :
    parseDigits (xs ++ [c]) = 10 * parseDigits xs + digitVal c := by
  simp [parseDigits, List.foldl_append]

theorem toDecAux_spec (fuel : Nat) : ∀ n : Nat, 1 ≤ n → n < 10 ^ fuel →
    toDecAux fuel n ≠ [] ∧ (toDecAux fuel n).all isDigitChar = true ∧
    parseDigits (toDecAux fuel n) = n := by
  induction fuel with
  | zero => intro n h1 h; simp at h; omega
  | succ fuel ih =>
      intro n h1 h
      by_cases h10 : n < 10
      · refine ⟨by simp [toDecAux, h10], ?_, ?_⟩
        · simp [toDecAux, h10, decDigit_isDigit n h10]
        · simp only [toDecAux, if_pos h10]
          simp only [parseDigits, List.foldl]
          rw [decDigit_val n h10]
          omega
      · have hdiv : n / 10 < 10 ^ fuel := by
          rw [Nat.div_lt_iff_lt_mul (by norm_num)]
          calc n < 10 ^ (fuel + 1) := h
            _ = 10 ^ fuel * 10 := by ring
        have hdiv1 : 1 ≤ n / 10 := Nat.one_le_div_iff (by norm_num) |>.mpr (by omega)
        obtain ⟨hne, hdig, hval⟩ := ih (n / 10) hdiv1 hdiv
        have hmod : n % 10 < 10 := Nat.mod_lt _ (by norm_num)
        refine ⟨by simp [toDecAux, h10], ?_, ?_⟩
        · simp [toDecAux, h10, List.all_append, hdig, decDigit_isDigit _ hmod]
        · simp only [toDecAux, if_neg h10]
          rw [parseDigits_append_one, hval, decDigit_val _ hmod]
          omega

theorem toDec_spec (n : Nat) :
    toDec n ≠ [] ∧ (toDec n).all isDigitChar = true ∧ parseDigits (toDec n) = n := by
  rcases Nat.eq_zero_or_pos n with h0 | h1
  · subst h0; refine ⟨by decide, by decide, by decide⟩
  · exact toDecAux_spec (n + 1) n h1 (lt_of_lt_of_le (Nat.lt_pow_self (by norm_num) n)
      (Nat.pow_le_pow_right (by norm_num) (Nat.le_succ n)))

theorem toDec_one : toDec 1 = ['1'] := rfl

/-- JS `s.substring(a)`: a negative start index clamps to 0. -/
def substringFrom (s : Str) (a : Int) : Str := s.drop a.toNat

/-- JS `s.substring(a, b)`: clamps both indices into `[0, s.length]` and
swaps them when `a > b`. -/
def substring (s : Str) (a b : Int) : Str :=
  let a' := min a.toNat s.length
  let b' := min b.toNat s.length
  (s.drop (min a' b')).take (max a' b' - min a' b')

/-- `sub` occurs in `s` at position `i`. -/
def occursAt (sub s : Str) (i : Nat) : Prop := sub <+: s.drop i

theorem occursAt_add_length_le {sub s : Str} {i : Nat} (hsub : sub ≠ [])
    (h : occursAt sub s i) : i + sub.length ≤ s.length := by
  have hl := h.length_le
  rw [List.length_drop] at hl
  by_cases hi : i ≤ s.length
  · omega
  · exfalso
    have : sub.length = 0 := by omega
    exact hsub (List.length_eq_zero.mp this)

/-- Search for the rightmost occurrence of `sub` at a position `≤ i`. -/
def lastIndexOfFrom (s sub : Str) : Nat → Int
  | 0 => if sub.isPrefixOf s then 0 else -1
  | i + 1 =>
      if sub.isPrefixOf (s.drop (i + 1)) then ((i : Int) + 1)
      else lastIndexOfFrom s sub i

/-- JS `s.lastIndexOf(sub)`: greatest index at which `sub` occurs, else `-1`.
For `sub = ""` this is `s.length`, as in JS. -/
def lastIndexOf (s sub : Str) : Int := lastIndexOfFrom s sub s.length

theorem lastIndexOfFrom_spec (s sub : Str) (i : Nat) :
    (lastIndexOfFrom s sub i = -1 ∧ ∀ j, j ≤ i → ¬ occursAt sub s j) ∨
    (∃ k : Nat, k ≤ i ∧ lastIndexOfFrom s sub i = (k : Int) ∧ occursAt sub s k ∧
      ∀ j, k < j → j ≤ i → ¬ occursAt sub s j) := by
  induction i with
  | zero =>
      by_cases h : sub.isPrefixOf s
      · right
        refine ⟨0, le_refl 0, by simp [lastIndexOfFrom, h], ?_, ?_⟩
        · simpa [occursAt] using List.isPrefixOf_iff_prefix.mp h
        · intro j hj hj0; omega
      · left
        refine ⟨by simp [lastIndexOfFrom, h], ?_⟩
        intro j hj
        interval_cases j
        simpa [occursAt] using fun hp => h (List.isPrefixOf_iff_prefix.mpr hp)
  | succ i ih =>
      by_cases h : sub.isPrefixOf (s.drop (i + 1))
      · right
        refine ⟨i + 1, le_refl _, by simp [lastIndexOfFrom, h], ?_, ?_⟩
        · simpa [occursAt] using List.isPrefixOf_iff_prefix.mp h
        · intro j hj hj'; omega
      · have hnot : ¬ occursAt sub s (i + 1) := by
          simpa [occursAt] using fun hp => h (List.isPrefixOf_iff_prefix.mpr hp)
        rcases ih with ⟨heq, hnone⟩ | ⟨k, hk, heq, hocc, hmax⟩
        · left
          refine ⟨by simp [lastIndexOfFrom, h, heq], ?_⟩
          intro j hj
          rcases Nat.lt_or_ge j (i + 1) with hj' | hj'
          · exact hnone j (by omega)
          · have : j = i + 1 := by omega
            subst this; exact hnot
        · right
          refine ⟨k, by omega, by simp [lastIndexOfFrom, h, heq], hocc, ?_⟩
          intro j hj hj'
          rcases Nat.lt_or_ge j (i + 1) with hj'' | hj''
          · exact hmax j hj (by omega)
          · have : j = i + 1 := by omega
            subst this; exact hnot

theorem lastIndexOf_eq_neg_one_iff {s sub : Str} (hsub : sub ≠ []) :
    lastIndexOf s sub = -1 ↔ ∀ j, ¬ occursAt sub s j := by
  rcases lastIndexOfFrom_spec s sub s.length with ⟨heq, hnone⟩ | ⟨k, hk, heq, hocc, _⟩
  · constructor
    · intro _ j hj
      rcases le_or_lt j s.length with hle | hgt
      · exact hnone j hle hj
      · have := occursAt_add_length_le hsub hj
        have : sub.length = 0 := by omega
        exact hsub (List.length_eq_zero.mp this)
    · intro _; exact heq
  · rw [lastIndexOf, heq]
    constructor
    · intro hcontra; omega
    · intro hnone; exact absurd hocc (hnone k)

theorem lastIndexOf_eq_coe_iff {s sub : Str} (hsub : sub ≠ []) (k : Nat) :
    lastIndexOf s sub = (k : Int) ↔
      occursAt sub s k ∧ ∀ j, k < j → ¬ occursAt sub s j := by
  have hbeyond : ∀ j, s.length < j → ¬ occursAt sub s j := by
    intro j hj hocc
    have := occursAt_add_length_le hsub hocc
    have hlen : sub.length = 0 := by omega
    exact hsub (List.length_eq_zero.mp hlen)
  rcases lastIndexOfFrom_spec s sub s.length with ⟨heq, hnone⟩ | ⟨k', hk', heq, hocc, hmax⟩
  · rw [lastIndexOf, heq]
    constructor
    · intro hcontra; omega
    · intro ⟨hocc, _⟩
      exfalso
      rcases le_or_lt k s.length with hle | hgt
      · exact hnone k hle hocc
      · exact hbeyond k hgt hocc
  · rw [lastIndexOf, heq]
    constructor
    · intro hkk
      have : k' = k := by omega
      subst this
      refine ⟨hocc, ?_⟩
      intro j hj
      rcases le_or_lt j s.length with hle | hgt
      · exact hmax j hj hle
      · exact hbeyond j hgt
    · intro ⟨hocck, hmaxk⟩
      have h1 : ¬ k' < k := fun hlt => (hmax k hlt (by
        have := occursAt_add_length_le hsub hocck
        omega)) hocck
      have h2 : ¬ k < k' := fun hlt => (hmaxk k' hlt) hocc
      have : k' = k := by omega
      simp [this]

/-- The immutable configuration of a `SequentialGenerator` instance.
`pfx` models the `prefix` field (a Lean keyword). -/
structure Config where
  pfx : Str
  dateFormat : Str
  separator : Str
  timeZone : Str
deriving DecidableEq

/-- The mutable runtime state of a `SequentialGenerator` instance.
`sequentialLength` is mutable via the auto-expansion paths. -/
structure GenState where
  sequentialLength : Nat
  lastGeneratedDate : Option Str
  currentSequence : Nat
deriving DecidableEq

/-- The `SequentialGeneratorConfig` options object: every field may be
`undefined` (`none`). -/
structure Options where
  pfx : Option Str
  dateFormat : Option Str
  sequentialLength : Option Nat
  timeZone : Option Str
  separator : Option Str

/-- The constructor (source lines 71-77).  `prefix`, `dateFormat`,
`sequentialLength` and `separator` are defaulted with `!== undefined`
checks; `timeZone` uses JS truthiness (`config.timeZone || 'UTC'`), so an
empty string also falls back to `'UTC'`. -/
def mkGenerator (o : Options) : Config × GenState :=
  ({ pfx := o.pfx.getD [],
     dateFormat := o.dateFormat.getD ("YYYYMMDD".toList),
     separator := o.separator.getD [],
     timeZone :=
       match o.timeZone with
       | none => "UTC".toList
       | some tz => if tz.isEmpty then "UTC".toList else tz },
   { sequentialLength := o.sequentialLength.getD 4,
     lastGeneratedDate := none,
     currentSequence := 0 })

/-- `getDateKey()` (source lines 255-257): renders "now" in the configured
timezone with the configured pattern.  `clock` is the abstract dayjs
backend `fun tz fmt => dayjs().tz(tz).format(fmt)`. -/
def getDateKey (cfg : Config) (clock : Str → Str → Str) : Str :=
  clock cfg.timeZone cfg.dateFormat

/-- `getDateFormatLength()` (source lines 246-248): the length of the
formatted current date; `today` is the ambient rendered date. -/
def getDateFormatLength (today : Str) : Nat := today.length

/-- The code template of lines 125 and 278:
`prefix + separator + key + separator + sequenceString`. -/
def compose (cfg : Config) (key seqStr : Str) : Str :=
  cfg.pfx ++ cfg.separator ++ key ++ cfg.separator ++ seqStr

/-- The JS expression `dateKey || this.getDateKey()` of line 269: an
`undefined` or empty `dateKey` falls back to the current date key. -/
def resolveKey (dateKey : Option Str) (today : Str) : Str :=
  match dateKey with
  | some k => if k.isEmpty then today else k
  | none => today

/-- `generateFromSequence(sequence, dateKey?)` (source lines 268-279).
Returns the updated state (the method mutates `sequentialLength` on
overflow) together with the code string. -/
def generateFromSequence (cfg : Config) (st : GenState) (sequence : Nat)
    (dateKey : Option Str) (today : Str) : GenState × Str :=
  let currentKey := resolveKey dateKey today
  let sequenceString := padStart (toDec sequence) st.sequentialLength '0'
  if h : sequenceString.length > st.sequentialLength then
    generateFromSequence cfg { st with sequentialLength := st.sequentialLength + 1 }
      1 (some currentKey) today
  else
    (st, compose cfg currentKey sequenceString)
termination_by (toDec sequence).length - st.sequentialLength
decreasing_by
  rw [padStart_length] at h
  have h1 : (toDec 1).length = 1 := rfl
  simp only [h1]
  omega

/-- `generate()` (source lines 111-126): the stateful path.  `today` is the
rendered current date of this call. -/
def generate (cfg : Config) (today : Str) (st : GenState) : GenState × Str :=
  let currentDate := today
  let seq1 := if st.lastGeneratedDate = some currentDate then st.currentSequence + 1 else 1
  let st1 : GenState :=
    { st with currentSequence := seq1, lastGeneratedDate := some currentDate }
  let sequenceString := padStart (toDec seq1) st1.sequentialLength '0'
  if sequenceString.length > st1.sequentialLength then
    generateFromSequence cfg { st1 with sequentialLength := st1.sequentialLength + 1 }
      1 (some currentDate) today
  else
    (st1, compose cfg currentDate sequenceString)

/-- `extractDate(code)` (source lines 132-146).  A non-empty separator is
used only when its last occurrence lies strictly after the
prefix+separator region; otherwise the date-format length is used. -/
def extractDate (cfg : Config) (today code : Str) : Str :=
  let startIndex : Int := (cfg.pfx.length : Int) + cfg.separator.length
  if cfg.separator.isEmpty then
    substring code startIndex (startIndex + (getDateFormatLength today : Int))
  else
    let lastSeparatorIndex := lastIndexOf code cfg.separator
    if lastSeparatorIndex > startIndex then
      substring code startIndex lastSeparatorIndex
    else
      substring code startIndex (startIndex + (getDateFormatLength today : Int))

/-- The sequence-segment substring taken by `extractSequence` (source lines
153-167): initially `code.length - sequentialLength`, overridden by the
position after the last separator occurrence when the separator is
non-empty and found, and by prefix+date arithmetic when it is empty. -/
def seqSegment (cfg : Config) (st : GenState) (today code : Str) : Str :=
  let startIndex : Int :=
    if cfg.separator.isEmpty then
      (cfg.pfx.length : Int) + cfg.separator.length + getDateFormatLength today
        + cfg.separator.length
    else
      let lastSeparatorIndex := lastIndexOf code cfg.separator
      if lastSeparatorIndex ≠ -1 then lastSeparatorIndex + cfg.separator.length
      else (code.length : Int) - (st.sequentialLength : Int)
  substringFrom code startIndex

/-- `extractSequence(code)` (source lines 152-169): `parseInt` of the
sequence segment; `none` models the `NaN` result. -/
def extractSequence (cfg : Config) (st : GenState) (today code : Str) : Option Nat :=
  parseIntTS (seqSegment cfg st today code)

/-- `validate(code)` (source lines 175-195). -/
def validate (cfg : Config) (today code : Str) : Bool :=
  if ¬ cfg.pfx.isPrefixOf code then false
  else
    let dateLength := getDateFormatLength today
    if code.length < cfg.pfx.length + cfg.separator.length * 2 + dateLength + 1 then false
    else if cfg.separator.isEmpty then
      isDigitsNonempty (substringFrom code
        ((cfg.pfx.length : Int) + cfg.separator.length + dateLength + cfg.separator.length))
    else
      let lastSeparatorIndex := lastIndexOf code cfg.separator
      if lastSeparatorIndex = -1 then false
      else
        isDigitsNonempty (substringFrom code (lastSeparatorIndex + cfg.separator.length))

/-- A parsed code (`parse`'s result object); `sequence` is `Option` because
`extractSequence` models `NaN` as `none`. -/
structure Parsed where
  pfx : Str
  date : Str
  sequence : Option Nat
deriving DecidableEq

/-- `parse(code)` (source lines 94-104): `Except.error ()` models the
`Invalid code format` exception.  The method reads but never writes the
instance state. -/
def parse (cfg : Config) (st : GenState) (today code : Str) : Except Unit Parsed :=
  if ¬ validate cfg today code then Except.error ()
  else
    Except.ok { pfx := cfg.pfx, date := extractDate cfg today code,
                sequence := extractSequence cfg st today code }

/-- `increment(lastCode)` (source lines 203-240).  Returns the state after
the call and either the next code or the `InvalidFormat` error; both error
exits leave the state exactly as it was.  The `none` branch of the match is
unreachable when `validate` holds (see `extractSequence_isSome_of_validate`);
in JS it would propagate `NaN`. -/
def increment (cfg : Config) (st : GenState) (today code : Str) :
    GenState × Except Unit Str :=
  if ¬ validate cfg today code then (st, Except.error ())
  else
    let currentDate := today
    let lastCodeDate := extractDate cfg today code
    if lastCodeDate = currentDate then
      match extractSequence cfg st today code with
      | some lastSequence =>
          let newLen :=
            if cfg.separator.isEmpty then
              let dateLength := getDateFormatLength today
              let lastSeqLength : Int :=
                (code.length : Int) - ((cfg.pfx.length : Int) + dateLength)
              if lastSeqLength > (st.sequentialLength : Int) then lastSeqLength.toNat
              else st.sequentialLength
            else
              let lastSeparatorIndex := lastIndexOf code cfg.separator
              let lastSeqLength : Int :=
                (code.length : Int) - (lastSeparatorIndex + cfg.separator.length)
              if lastSeqLength > (st.sequentialLength : Int) then lastSeqLength.toNat
              else st.sequentialLength
          let st' := { st with sequentialLength := newLen }
          let r := generateFromSequence cfg st' (lastSequence + 1) (some currentDate) today
          (r.1, Except.ok r.2)
      | none => (st, Except.error ())
    else
      let r := generateFromSequence cfg st 1 (some currentDate) today
      (r.1, Except.ok r.2)

/-- `reset()` (source lines 83-86). -/
def reset (st : GenState) : GenState :=
  { st with currentSequence := 0, lastGeneratedDate := none }

theorem resolveKey_some_resolveKey (dk : Option Str) (today : Str) :
    resolveKey (some (resolveKey dk today)) today = resolveKey dk today := by
  cases dk with
  | none => simp [resolveKey]
  | some k =>
      by_cases hk : k.isEmpty <;> simp [resolveKey, hk]

theorem resolveKey_some_self (today : Str) : resolveKey (some today) today = today := by
  by_cases h : today.isEmpty <;> simp [resolveKey, h]

/-- Closed form of `generateFromSequence`: the recursion fires at most once
because the retried sequence value is the literal `1`, which always fits in
the grown width. -/
theorem generateFromSequence_eq (cfg : Config) (st : GenState) (n : Nat)
    (dk : Option Str) (today : Str) :
    generateFromSequence cfg st n dk today =
      if (toDec n).length > st.sequentialLength then
        ({ st with sequentialLength := st.sequentialLength + 1 },
         compose cfg (resolveKey dk today) (padStart (toDec 1) (st.sequentialLength + 1) '0'))
      else
        (st, compose cfg (resolveKey dk today) (padStart (toDec n) st.sequentialLength '0')) := by
  rw [generateFromSequence]
  by_cases h : (padStart (toDec n) st.sequentialLength '0').length > st.sequentialLength
  · rw [dif_pos h]
    rw [generateFromSequence]
    have h1 : ¬ (padStart (toDec 1) (st.sequentialLength + 1) '0').length
        > st.sequentialLength + 1 := by
      rw [padStart_length]
      have : (toDec 1).length = 1 := rfl
      omega
    rw [dif_neg h1]
    have hcond : (toDec n).length > st.sequentialLength := by
      rw [padStart_length] at h; omega
    rw [if_pos hcond, resolveKey_some_resolveKey]
  · rw [dif_neg h]
    have hcond : ¬ (toDec n).length > st.sequentialLength := by
      rw [padStart_length] at h; omega
    rw [if_neg hcond]

theorem generateFromSequence_lastGeneratedDate (cfg : Config) (st : GenState)
    (n : Nat) (dk : Option Str) (today : Str) :
    (generateFromSequence cfg st n dk today).1.lastGeneratedDate = st.lastGeneratedDate := by
  rw [generateFromSequence_eq]
  split <;> rfl

theorem generateFromSequence_currentSequence (cfg : Config) (st : GenState)
    (n : Nat) (dk : Option Str) (today : Str) :
    (generateFromSequence cfg st n dk today).1.currentSequence = st.currentSequence := by
  rw [generateFromSequence_eq]
  split <;> rfl

theorem generateFromSequence_len_mono (cfg : Config) (st : GenState)
    (n : Nat) (dk : Option Str) (today : Str) :
    st.sequentialLength ≤ (generateFromSequence cfg st n dk today).1.sequentialLength := by
  rw [generateFromSequence_eq]
  split
  · exact Nat.le_succ _
  · exact le_refl _

/-- The characterization of `validate`: the prefix test, the length bound,
and the digits test on the sequence segment, where with a non-empty
separator the segment is the suffix after the greatest occurrence of the
separator (and validation fails when the separator does not occur). -/
theorem validate_iff (cfg : Config) (today code : Str) :
    validate cfg today code = true ↔
      cfg.pfx <+: code ∧
      cfg.pfx.length + 2 * cfg.separator.length + today.length + 1 ≤ code.length ∧
      ((cfg.separator = [] ∧
          isDigitsNonempty (code.drop (cfg.pfx.length + today.length)) = true) ∨
       (cfg.separator ≠ [] ∧ ∃ k : Nat, occursAt cfg.separator code k ∧
          (∀ j, k < j → ¬ occursAt cfg.separator code j) ∧
          isDigitsNonempty (code.drop (k + cfg.separator.length)) = true)) := by
  unfold validate
  by_cases hp : cfg.pfx.isPrefixOf code
  · simp only [hp, not_true, if_neg, ite_not, if_pos]
    by_cases hl : code.length <
        cfg.pfx.length + cfg.separator.length * 2 + getDateFormatLength today + 1
    · simp only [if_pos hl]
      constructor
      · intro hfalse; exact absurd hfalse (by simp)
      · intro ⟨_, hlen, _⟩
        exfalso
        simp only [getDateFormatLength] at hl
        omega
    · simp only [if_neg hl]
      have hpfx : cfg.pfx <+: code := List.isPrefixOf_iff_prefix.mp hp
      have hlen : cfg.pfx.length + 2 * cfg.separator.length + today.length + 1
          ≤ code.length := by
        simp only [getDateFormatLength] at hl
        omega
      by_cases hsep : cfg.separator.isEmpty
      · have hsepnil : cfg.separator = [] := List.isEmpty_iff.mp hsep
        simp only [if_pos hsep]
        constructor
        · intro hdig
          refine ⟨hpfx, hlen, Or.inl ⟨hsepnil, ?_⟩⟩
          simpa [substringFrom, hsepnil, getDateFormatLength,
            Int.toNat_ofNat] using hdig
        · intro ⟨_, _, hcase⟩
          rcases hcase with ⟨_, hdig⟩ | ⟨hne, _⟩
          · simpa [substringFrom, hsepnil, getDateFormatLength,
              Int.toNat_ofNat] using hdig
          · exact absurd hsepnil hne
      · have hsepne : cfg.separator ≠ [] := by
          intro hnil; simp [hnil] at hsep
        simp only [if_neg hsep]
        by_cases hli : lastIndexOf code cfg.separator = -1
        · simp only [if_pos hli]
          have hnone := (lastIndexOf_eq_neg_one_iff hsepne).mp hli
          constructor
          · intro hfalse; exact absurd hfalse (by simp)
          · intro ⟨_, _, hcase⟩
            rcases hcase with ⟨hnil, _⟩ | ⟨_, k, hocc, _, _⟩
            · exact absurd hnil hsepne
            · exact absurd hocc (hnone k)
        · simp only [if_neg hli]
          have hk : ∃ k : Nat, lastIndexOf code cfg.separator = (k : Int) := by
            rcases lastIndexOfFrom_spec code cfg.separator code.length with
              ⟨heq, _⟩ | ⟨k, _, heq, _, _⟩
            · exact absurd heq hli
            · exact ⟨k, heq⟩
          obtain ⟨k, hkeq⟩ := hk
          obtain ⟨hocc, hmax⟩ := (lastIndexOf_eq_coe_iff hsepne k).mp hkeq
          constructor
          · intro hdig
            refine ⟨hpfx, hlen, Or.inr ⟨hsepne, k, hocc, hmax, ?_⟩⟩
            have : ((k : Int) + cfg.separator.length).toNat
                = k + cfg.separator.length := by omega
            simpa [substringFrom, hkeq, this] using hdig
          · intro ⟨_, _, hcase⟩
            rcases hcase with ⟨hnil, _⟩ | ⟨_, k', hocc', hmax', hdig⟩
            · exact absurd hnil hsepne
            · have hkk : k' = k := by
                by_contra hne
                rcases Nat.lt_or_ge k' k with hlt | hge
                · exact (hmax' k hlt) hocc
                · have : k < k' := by omega
                  exact (hmax k' this) hocc'
              subst hkk
              have : ((k' : Int) + cfg.separator.length).toNat
                  = k' + cfg.separator.length := by omega
              simpa [substringFrom, hkeq, this] using hdig
  · simp only [hp]
    constructor
    · intro hfalse; exact absurd hfalse (by simp)
    · intro ⟨hpfx, _, _⟩
      exact absurd (List.isPrefixOf_iff_prefix.mpr hpfx) hp

/-- When `validate` accepts a code, `extractSequence` returns a value (the
sequence segment it takes is exactly the digits run that `validate`
checked). -/
theorem extractSequence_isSome_of_validate (cfg : Config) (st : GenState)
    (today code : Str) (hv : validate cfg today code = true) :
    ∃ v, extractSequence cfg st today code = some v := by
  obtain ⟨hpfx, hlen, hcase⟩ := (validate_iff cfg today code).mp hv
  rcases hcase with ⟨hsepnil, hdig⟩ | ⟨hsepne, k, hocc, hmax, hdig⟩
  · refine ⟨parseDigits (code.drop (cfg.pfx.length + today.length)), ?_⟩
    unfold extractSequence seqSegment
    have hsep : cfg.separator.isEmpty = true := by simp [hsepnil]
    rw [if_pos hsep]
    have harith : (((cfg.pfx.length : Int) + cfg.separator.length
        + getDateFormatLength today + cfg.separator.length)).toNat
        = cfg.pfx.length + today.length := by
      simp [hsepnil, getDateFormatLength]
      omega
    rw [substringFrom, harith]
    exact parseIntTS_of_digits _ hdig
  · refine ⟨parseDigits (code.drop (k + cfg.separator.length)), ?_⟩
    unfold extractSequence seqSegment
    have hsep : ¬ cfg.separator.isEmpty = true := by
      simp [List.isEmpty_iff, hsepne]
    rw [if_neg hsep]
    have hkeq : lastIndexOf code cfg.separator = (k : Int) :=
      (lastIndexOf_eq_coe_iff hsepne k).mpr ⟨hocc, hmax⟩
    have hne : lastIndexOf code cfg.separator ≠ -1 := by rw [hkeq]; omega
    rw [if_pos hne, hkeq]
    have harith : ((k : Int) + cfg.separator.length).toNat
        = k + cfg.separator.length := by omega
    rw [substringFrom, harith]
    exact parseIntTS_of_digits _ hdig

/-- A fixed rendered date key for the concrete scenarios. -/
def key1 : Str := "20230101".toList

/-- A generator with empty prefix and separator and `sequentialLength: 1`. -/
def cfg1 : Config := ⟨[], "YYYYMMDD".toList, [], "UTC".toList⟩

/-- Initial runtime state with configured width 1. -/
def st0 : GenState := ⟨1, none, 0⟩

/-- One stateful `generate()` call under an unchanging date key. -/
def genStep (st : GenState) : GenState := (generate cfg1 key1 st).1

/-- The `INV`/`-` configuration of the spec's concrete examples. -/
def cfgINV : Config := ⟨"INV".toList, "YYYYMMDD".toList, "-".toList, "UTC".toList⟩

theorem genStep_nine : genStep^[9] st0 = GenState.mk 1 (some key1) 9 := by decide

theorem generate_tenth :
    generate cfg1 key1 (GenState.mk 1 (some key1) 9)
      = (GenState.mk 2 (some key1) 10, key1 ++ ('0' :: '1' :: [])) := by
  simp only [generate, generateFromSequence_eq]
  decide

/-- C1: with `sequenceWidth = 1` and an unchanging date key, the first nine
`generate()` calls yield sequences 1..9, and the tenth grows the width to 2
and stores the working sequence 10 — but, contrary to the claim (and to the
spec's mandated continuation policy), the returned code's sequence segment
is `"01"`, denoting 1, not 10: line 122 of the source re-renders with the
hard-coded sequence `1`. -/
theorem c1_tenth_generate_resets_instead_of_continuing :
    (∀ i : Fin 9, (generate cfg1 key1 (genStep^[(i : Nat)] st0)).2
        = key1 ++ toDec ((i : Nat) + 1)) ∧
    (generate cfg1 key1 (genStep^[9] st0)).1.currentSequence = 10 ∧
    (generate cfg1 key1 (genStep^[9] st0)).1.sequentialLength = 2 ∧
    (generate cfg1 key1 (genStep^[9] st0)).2 = key1 ++ ('0' :: '1' :: []) ∧
    parseDigits ('0' :: '1' :: []) = 1 := by
  refine ⟨by decide, ?_, ?_, ?_, by decide⟩ <;>
    rw [genStep_nine, generate_tenth]

/-- C2: the reproducibility invariant fails right after the overflowing
tenth `generate()` call: the call returned the code with segment `"01"`,
but `generateFromSequence(currentSequence, lastDateKey)` on the stored
state (`currentSequence = 10`, width now 2) renders `"10"`. -/
theorem c2_generated_code_not_reproducible_after_overflow :
    (generate cfg1 key1 (genStep^[9] st0)).2 = key1 ++ ('0' :: '1' :: []) ∧
    (generateFromSequence cfg1 (generate cfg1 key1 (genStep^[9] st0)).1
        (generate cfg1 key1 (genStep^[9] st0)).1.currentSequence
        (generate cfg1 key1 (genStep^[9] st0)).1.lastGeneratedDate key1).2
      = key1 ++ ('1' :: '0' :: []) ∧
    key1 ++ ('0' :: '1' :: []) ≠ key1 ++ ('1' :: '0' :: []) := by
  rw [genStep_nine, generate_tenth]
  refine ⟨rfl, ?_, by decide⟩
  rw [generateFromSequence_eq]
  decide

/-- C4: the round-trip `extractSequence(generateFromSequence(n)) = n` fails
on the code for any sequence that overflows the configured width, because
`generateFromSequence` resets to 1 while growing: with width 1,
`generateFromSequence(10)` renders `INV-20230101-01` whose sequence
segment parses to 1, not 10 (the date half of the round-trip holds). -/
theorem c4_sequence_roundtrip_fails_on_overflow :
    (generateFromSequence cfgINV (GenState.mk 1 none 0) 10 none key1).2
      = "INV-20230101-01".toList ∧
    extractSequence cfgINV (generateFromSequence cfgINV (GenState.mk 1 none 0) 10 none key1).1
        key1 (generateFromSequence cfgINV (GenState.mk 1 none 0) 10 none key1).2 = some 1 ∧
    (some 1 : Option Nat) ≠ some 10 ∧
    extractDate cfgINV key1
      (generateFromSequence cfgINV (GenState.mk 1 none 0) 10 none key1).2 = key1 := by
  rw [generateFromSequence_eq]
  refine ⟨by decide, by decide, by decide, by decide⟩

/-- C3: for every `generate()` call, if the fresh date key equals
`lastDateKey` the issued working sequence is the previous
`currentSequence + 1`, and otherwise (first call or changed key, which
covers coarser patterns mapping distinct days to one key, since the
comparison is on the formatted key string alone) it is `1`, regardless of
the previous value; the key is stored either way.  The working sequence is
the `currentSequence` stored by the call — the overflow path re-renders the
code but never touches `currentSequence`. -/
theorem c3_working_sequence_update (cfg : Config) (today : Str) (st : GenState) :
    (generate cfg today st).1.currentSequence
        = (if st.lastGeneratedDate = some today then st.currentSequence + 1 else 1) ∧
    (generate cfg today st).1.lastGeneratedDate = some today := by
  unfold generate
  by_cases hcond : st.lastGeneratedDate = some today
  · simp only [if_pos hcond]
    split
    · rw [generateFromSequence_currentSequence, generateFromSequence_lastGeneratedDate]
      exact ⟨rfl, rfl⟩
    · exact ⟨rfl, rfl⟩
  · simp only [if_neg hcond]
    split
    · rw [generateFromSequence_currentSequence, generateFromSequence_lastGeneratedDate]
      exact ⟨rfl, rfl⟩
    · exact ⟨rfl, rfl⟩

/-- C8: `generateFromSequence` neither reads nor writes the runtime fields
`lastGeneratedDate` and `currentSequence`: they survive the call unchanged,
and the returned code is the same for any two states agreeing on
`sequentialLength` (the only state it consults). -/
theorem c8_generateFromSequence_stateless (cfg : Config) (st : GenState)
    (n : Nat) (dk : Option Str) (today : Str) :
    (generateFromSequence cfg st n dk today).1.lastGeneratedDate = st.lastGeneratedDate ∧
    (generateFromSequence cfg st n dk today).1.currentSequence = st.currentSequence ∧
    ∀ st' : GenState, st'.sequentialLength = st.sequentialLength →
      (generateFromSequence cfg st' n dk today).2 = (generateFromSequence cfg st n dk today).2 := by
  refine ⟨generateFromSequence_lastGeneratedDate cfg st n dk today,
          generateFromSequence_currentSequence cfg st n dk today, ?_⟩
  intro st' hlen
  rw [generateFromSequence_eq, generateFromSequence_eq, hlen]
  split <;> rfl

/-- Witness for C8 at a concrete configuration: two states that differ in
`lastGeneratedDate` and `currentSequence` but share the width produce the
same code, and the fields are preserved. -/
theorem c8_generateFromSequence_stateless_witness :
    (GenState.mk 4 (some ("20230101".toList)) 7).sequentialLength
        = (GenState.mk 4 none 0).sequentialLength ∧
    (generateFromSequence (Config.mk ("INV".toList) ("YYYYMMDD".toList) ("-".toList)
          ("UTC".toList)) (GenState.mk 4 (some ("20230101".toList)) 7) 5 none
          ("20230101".toList)).2
      = (generateFromSequence (Config.mk ("INV".toList) ("YYYYMMDD".toList) ("-".toList)
          ("UTC".toList)) (GenState.mk 4 none 0) 5 none ("20230101".toList)).2 ∧
    (generateFromSequence (Config.mk ("INV".toList) ("YYYYMMDD".toList) ("-".toList)
          ("UTC".toList)) (GenState.mk 4 none 0) 5 none
          ("20230101".toList)).1.currentSequence = 0 := by
  refine ⟨rfl, ?_, ?_⟩
  · exact (c8_generateFromSequence_stateless
      (Config.mk ("INV".toList) ("YYYYMMDD".toList) ("-".toList) ("UTC".toList))
      (GenState.mk 4 none 0) 5 none ("20230101".toList)).2.2
      (GenState.mk 4 (some ("20230101".toList)) 7) rfl
  · rw [(c8_generateFromSequence_stateless
      (Config.mk ("INV".toList) ("YYYYMMDD".toList) ("-".toList) ("UTC".toList))
      (GenState.mk 4 none 0) 5 none ("20230101".toList)).2.1]

/-- C9: `sequentialLength` is a one-way ratchet.  The state-returning
operations `generate`, `generateFromSequence` and `increment` never
decrease it, `reset` keeps it exactly while restoring `currentSequence` to
`0` and `lastGeneratedDate` to unset, and the remaining public operations
(`validate`, `parse`, `extractDate`, `extractSequence`, `getDateKey`) are
stateless by construction — they return no state at all. -/
theorem c9_sequenceWidth_ratchet (cfg : Config) (st : GenState)
    (today code : Str) (n : Nat) (dk : Option Str) :
    (reset st).sequentialLength = st.sequentialLength ∧
    (reset st).currentSequence = 0 ∧
    (reset st).lastGeneratedDate = none ∧
    st.sequentialLength ≤ (generate cfg today st).1.sequentialLength ∧
    st.sequentialLength ≤ (generateFromSequence cfg st n dk today).1.sequentialLength ∧
    st.sequentialLength ≤ (increment cfg st today code).1.sequentialLength := by
  refine ⟨rfl, rfl, rfl, ?_, generateFromSequence_len_mono cfg st n dk today, ?_⟩
  · unfold generate
    dsimp only
    split <;> split
    · exact le_trans (Nat.le_succ _)
        (generateFromSequence_len_mono cfg
          ⟨st.sequentialLength + 1, some today, st.currentSequence + 1⟩ 1 (some today) today)
    · exact le_refl _
    · exact le_trans (Nat.le_succ _)
        (generateFromSequence_len_mono cfg
          ⟨st.sequentialLength + 1, some today, 1⟩ 1 (some today) today)
    · exact le_refl _
  · unfold increment
    dsimp only
    split
    · exact le_refl _
    · split
      · split
        · refine le_trans ?_ (generateFromSequence_len_mono cfg _ _ _ today)
          dsimp only
          split_ifs <;> omega
        · exact le_refl _
      · exact generateFromSequence_len_mono cfg st 1 _ today

/-- C5: when `increment` receives a valid code whose embedded date equals
the current date key and whose embedded sequence segment is wider than the
configured width, it raises `sequentialLength` to the embedded width and
returns the successor code rendered at that preserved width (the fitting
hypothesis `hfit` states that the successor still fits the embedded width,
which is what "the next code at that preserved width" presupposes). -/
theorem c5_width_preserving_increment (cfg : Config) (st : GenState)
    (today code : Str) (s : Nat)
    (hv : validate cfg today code = true)
    (hd : extractDate cfg today code = today)
    (hs : extractSequence cfg st today code = some s)
    (hw : (seqSegment cfg st today code).length > st.sequentialLength)
    (hfit : (toDec (s + 1)).length ≤ (seqSegment cfg st today code).length) :
    increment cfg st today code =
      ({ st with sequentialLength := (seqSegment cfg st today code).length },
       Except.ok (compose cfg today
          (padStart (toDec (s + 1)) (seqSegment cfg st today code).length '0'))) := by
  obtain ⟨hpfx, hlen, hcase⟩ := (validate_iff cfg today code).mp hv
  unfold increment
  rw [if_neg (by simp [hv])]
  dsimp only
  rw [if_pos hd, hs]
  dsimp only
  rcases hcase with ⟨hsepnil, hdig⟩ | ⟨hsepne, k, hocc, hmax, hdig⟩
  · have hsep : cfg.separator.isEmpty = true := by simp [hsepnil]
    have hseg : seqSegment cfg st today code = code.drop (cfg.pfx.length + today.length) := by
      unfold seqSegment
      rw [if_pos hsep]
      unfold substringFrom
      simp only [hsepnil, getDateFormatLength, List.length_nil]
      congr 1
    have hsegl : (seqSegment cfg st today code).length
        = code.length - (cfg.pfx.length + today.length) := by
      rw [hseg, List.length_drop]
    rw [if_pos hsep]
    split_ifs with hcond
    · have htoNat : ((code.length : Int)
          - ((cfg.pfx.length : Int) + (getDateFormatLength today : Int))).toNat
          = (seqSegment cfg st today code).length := by
        simp only [getDateFormatLength]
        rw [hsegl]
        omega
      rw [htoNat, generateFromSequence_eq]
      rw [if_neg (by simpa using Nat.not_lt.mpr hfit), resolveKey_some_self]
    · exfalso
      simp only [getDateFormatLength] at hcond
      rw [hsegl] at hw
      omega
  · have hsep : ¬ cfg.separator.isEmpty = true := by
      simp [List.isEmpty_iff, hsepne]
    have hkeq : lastIndexOf code cfg.separator = (k : Int) :=
      (lastIndexOf_eq_coe_iff hsepne k).mpr ⟨hocc, hmax⟩
    have hbound : k + cfg.separator.length ≤ code.length :=
      occursAt_add_length_le hsepne hocc
    have hseg : seqSegment cfg st today code = code.drop (k + cfg.separator.length) := by
      unfold seqSegment
      rw [if_neg hsep, hkeq, if_pos (show (k : Int) ≠ -1 by omega)]
      unfold substringFrom
      congr 1
    have hsegl : (seqSegment cfg st today code).length
        = code.length - (k + cfg.separator.length) := by
      rw [hseg, List.length_drop]
    rw [if_neg hsep, hkeq]
    split_ifs with hcond
    · have htoNat : ((code.length : Int) - ((k : Int) + (cfg.separator.length : Int))).toNat
          = (seqSegment cfg st today code).length := by
        rw [hsegl]
        omega
      rw [htoNat, generateFromSequence_eq]
      rw [if_neg (by simpa using Nat.not_lt.mpr hfit), resolveKey_some_self]
    · exfalso
      rw [hsegl] at hw
      omega

/-- Witness for C5 at the spec's concrete example: incrementing
`INV-20230101-00001` (5-digit segment, configured width 4) on the same
date key yields `INV-20230101-00002` and the stored width becomes 5. -/
theorem c5_width_preserving_increment_witness :
    validate cfgINV key1 ("INV-20230101-00001".toList) = true ∧
    extractDate cfgINV key1 ("INV-20230101-00001".toList) = key1 ∧
    extractSequence cfgINV (GenState.mk 4 none 0) key1 ("INV-20230101-00001".toList) = some 1 ∧
    (seqSegment cfgINV (GenState.mk 4 none 0) key1 ("INV-20230101-00001".toList)).length
        > (GenState.mk 4 none 0).sequentialLength ∧
    (toDec 2).length
        ≤ (seqSegment cfgINV (GenState.mk 4 none 0) key1 ("INV-20230101-00001".toList)).length ∧
    increment cfgINV (GenState.mk 4 none 0) key1 ("INV-20230101-00001".toList)
      = (GenState.mk 5 none 0, Except.ok ("INV-20230101-00002".toList)) := by
  refine ⟨by decide, by decide, by decide, by decide, by decide, ?_⟩
  have h := c5_width_preserving_increment cfgINV (GenState.mk 4 none 0) key1
    ("INV-20230101-00001".toList) 1 (by decide) (by decide) (by decide) (by decide) (by decide)
  rw [h]
  rfl

/-- The sequence segment recovered the way the claim literally describes
`validate`: with a non-empty separator, the suffix after the last
separator occurrence, but subject to the strictly-after-prefix guard with
pattern-length fallback (the guard that in the source only `extractDate`
applies). -/
def recoveredSeqSegmentSpec (cfg : Config) (today code : Str) : Str :=
  if cfg.separator.isEmpty then
    substringFrom code ((cfg.pfx.length : Int) + (getDateFormatLength today : Int))
  else
    let lastSeparatorIndex := lastIndexOf code cfg.separator
    if lastSeparatorIndex > (cfg.pfx.length : Int) + (cfg.separator.length : Int) then
      substringFrom code (lastSeparatorIndex + cfg.separator.length)
    else
      substringFrom code ((cfg.pfx.length : Int) + cfg.separator.length
        + (getDateFormatLength today : Int) + cfg.separator.length)

/-- The validation predicate exactly as the claim words it (prefix test,
length bound, digits test on `recoveredSeqSegmentSpec`). -/
def validateSpec (cfg : Config) (today code : Str) : Bool :=
  cfg.pfx.isPrefixOf code
  && decide (cfg.pfx.length + 2 * cfg.separator.length + getDateFormatLength today + 1
      ≤ code.length)
  && isDigitsNonempty (recoveredSeqSegmentSpec cfg today code)

/-- C6 counterexample: with prefix `A-` and separator `-`, the code
`A-X0230101250` contains the separator only inside the prefix region, so
the claim's guarded recovery falls back to pattern-length inference and
accepts it, while the source `validate` takes the suffix after that
occurrence (`X0230101250`, non-numeric) and rejects it. -/
theorem c6_guarded_recovery_counterexample :
    validateSpec ⟨"A-".toList, "YYYYMMDD".toList, "-".toList, "UTC".toList⟩ key1
        ("A-X0230101250".toList) = true ∧
    validate ⟨"A-".toList, "YYYYMMDD".toList, "-".toList, "UTC".toList⟩ key1
        ("A-X0230101250".toList) = false := by
  decide

/-- C6 (amended): `validate(code)` is true iff the code starts with the
prefix, the length bound holds, and the digits test passes on the sequence
segment recovered with NO strictly-after-prefix guard: with a non-empty
separator the segment is the suffix after the last separator occurrence
wherever that occurrence lies (and validation fails when the separator
does not occur at all); with an empty separator it is the suffix after the
pattern-length date segment. -/
theorem c6_validate_characterization (cfg : Config) (today code : Str) :
    validate cfg today code = true ↔
      cfg.pfx <+: code ∧
      cfg.pfx.length + 2 * cfg.separator.length + today.length + 1 ≤ code.length ∧
      ((cfg.separator = [] ∧
          isDigitsNonempty (code.drop (cfg.pfx.length + today.length)) = true) ∨
       (cfg.separator ≠ [] ∧ ∃ k : Nat, occursAt cfg.separator code k ∧
          (∀ j, k < j → ¬ occursAt cfg.separator code j) ∧
          isDigitsNonempty (code.drop (k + cfg.separator.length)) = true)) :=
  validate_iff cfg today code

/-- C7: `increment` fails (with the `InvalidFormat` error) exactly when
`validate` rejects the code, likewise `parse`, and a failing `increment`
leaves the instance state untouched (both error exits return the state as
received; `parse`, `validate` and the extractors never write state at all,
as their types show). -/
theorem c7_invalid_format_iff_state_preserved (cfg : Config) (st : GenState)
    (today code : Str) :
    ((increment cfg st today code).2 = Except.error () ↔ validate cfg today code = false) ∧
    ((increment cfg st today code).2 = Except.error () → (increment cfg st today code).1 = st) ∧
    (parse cfg st today code = Except.error () ↔ validate cfg today code = false) := by
  refine ⟨?_, ?_, ?_⟩
  · unfold increment
    by_cases hv : validate cfg today code = true
    · rw [if_neg (by simp [hv])]
      dsimp only
      simp only [hv]
      split
      · obtain ⟨v, hval⟩ := extractSequence_isSome_of_validate cfg st today code hv
        rw [hval]
        simp
      · simp
    · have hv' : validate cfg today code = false := by
        cases hval : validate cfg today code
        · rfl
        · exact absurd hval hv
      rw [if_pos (by simp [hv'])]
      simp [hv']
  · unfold increment
    by_cases hv : validate cfg today code = true
    · rw [if_neg (by simp [hv])]
      dsimp only
      split
      · obtain ⟨v, hval⟩ := extractSequence_isSome_of_validate cfg st today code hv
        rw [hval]
        intro hcontra
        simp at hcontra
      · intro hcontra
        simp at hcontra
    · rw [if_pos hv]
      intro _
      rfl
  · unfold parse
    by_cases hv : validate cfg today code = true
    · rw [if_neg (by simp [hv])]
      simp [hv]
    · have hv' : validate cfg today code = false := by
        cases hval : validate cfg today code
        · rfl
        · exact absurd hval hv
      rw [if_pos (by simp [hv'])]
      simp [hv']

/-- Witness for C7 at the repo's own test input: `increment("INVALID")` on
the `INV`-prefixed generator fails and leaves the state unchanged. -/
theorem c7_invalid_format_iff_state_preserved_witness :
    validate (Config.mk ("INV".toList) ("YYYYMMDD".toList) ("-".toList) ("UTC".toList))
      ("20230101".toList) ("INVALID".toList) = false ∧
    (increment (Config.mk ("INV".toList) ("YYYYMMDD".toList) ("-".toList) ("UTC".toList))
      (GenState.mk 4 none 0) ("20230101".toList) ("INVALID".toList)).2 = Except.error () ∧
    (increment (Config.mk ("INV".toList) ("YYYYMMDD".toList) ("-".toList) ("UTC".toList))
      (GenState.mk 4 none 0) ("20230101".toList) ("INVALID".toList)).1 = GenState.mk 4 none 0 := by
  have hface := c7_invalid_format_iff_state_preserved
    (Config.mk ("INV".toList) ("YYYYMMDD".toList) ("-".toList) ("UTC".toList))
    (GenState.mk 4 none 0) ("20230101".toList) ("INVALID".toList)
  have hv : validate (Config.mk ("INV".toList) ("YYYYMMDD".toList) ("-".toList) ("UTC".toList))
      ("20230101".toList) ("INVALID".toList) = false := by decide
  have herr := hface.1.mpr hv
  exact ⟨hv, herr, hface.2.1 herr⟩

/-- C10: the constructor tests `timeZone` for truthiness (`|| 'UTC'`), so an
empty-string `timeZone` behaves exactly like an absent one and yields UTC
date keys, whereas empty-string `prefix`, `dateFormat` and `separator` are
preserved verbatim (those are only tested against `undefined`). -/
theorem c10_constructor_truthiness (o : Options) (clock : Str → Str → Str) :
    mkGenerator { o with timeZone := some [] } = mkGenerator { o with timeZone := none } ∧
    (mkGenerator { o with timeZone := some [] }).1.timeZone = "UTC".toList ∧
    (mkGenerator { o with pfx := some [] }).1.pfx = [] ∧
    (mkGenerator { o with dateFormat := some [] }).1.dateFormat = [] ∧
    (mkGenerator { o with separator := some [] }).1.separator = [] ∧
    getDateKey (mkGenerator { o with timeZone := some [] }).1 clock
      = clock ("UTC".toList) (mkGenerator { o with timeZone := some [] }).1.dateFormat := by
  refine ⟨?_, rfl, rfl, rfl, rfl, rfl⟩
  simp [mkGenerator]

end SeqGen
